import Mathlib

/-!
Verification development for the obsidian_discord_plugin repository
(src/main.ts).  The plugin scans markdown text for markers of the shape
"(discord@YYYY-MM-DD HH:MM)", caches the extracted tasks, and on a periodic
sweep fires at most one Discord notification per task identity, persisting
the set of already-notified identities.

Shallow embedding notes:
* The JavaScript regex /(.*?)(\(discord@(\d\x7b4\x7d-\d\x7b2\x7d-\d\x7b2\x7d \d\x7b2\x7d:\d\x7b2\x7d)\))/g
  driven by repeated `exec` is embedded operationally: `findMarker` locates the
  earliest occurrence of the fixed-shape marker at or after the current scan
  position (regex matching is leftmost-first), and the lazy dot capture, which
  cannot cross line terminators, is recovered by `afterLastNewline` applied to
  the text between the previous marker and the found one.
* `new Date("YYYY-MM-DD HH:MM")` is embedded as an injective, strictly
  monotone mixed-radix numeral over the five digit groups
  (`parseDate`); all date comparisons performed by the source
  (`dueDateTime <= now`) are order-isomorphic to this encoding for
  calendrically valid payloads.  `Date.toISOString` is embedded as a
  deterministic rendering of that numeral (`isoOfDate`); the source's
  local-to-UTC shift is a fixed bijection on time points and is abstracted
  to the identity, which preserves everything the program uses the
  serialization for (building stable task identities).
* JavaScript `Set<Task>` holds object references; every extracted task is a
  fresh object, so the cache behaves as a sequence that grows by appending,
  which is how it is embedded (`addToTaskCache`).
* Fuel: `extractGo` consumes one fuel per extracted marker and each marker
  spans 26 characters of the remaining text, so fuel `length + 1` can never
  be exhausted; `extractGo_fuel_congr` below certifies fuel irrelevance.
-/

namespace ObsidianDiscord

/-- Line terminators excluded by the JavaScript regex dot. -/
def isLineTerm (c : Char) : Bool :=
  c == '\n' || c == '\r' || c.toNat == 0x2028 || c.toNat == 0x2029

/-- The suffix of `l` after its last line terminator (all of `l` when none):
the furthest-left start position the dot capture can reach. -/
def afterLastNewline (l : List Char) : List Char :=
  (l.reverse.takeWhile (fun c => !(isLineTerm c))).reverse

/-- JavaScript String.prototype.trim on the character list. -/
def trimChars (l : List Char) : List Char :=
  ((l.dropWhile Char.isWhitespace).reverse.dropWhile Char.isWhitespace).reverse

/-- The checkbox handling of extractTasks: if the trimmed text starts with
"- [ ]" the source replaces that first occurrence by "" and trims again. -/
def stripBox (l : List Char) : List Char :=
  if l.take 5 = ['-', ' ', '[', ' ', ']'] then trimChars (l.drop 5) else l

/-- The literal marker head "(discord@". -/
def markerHead : List Char := ['(', 'd', 'i', 's', 'c', 'o', 'r', 'd', '@']

/-- Shape check for the 16-character date payload YYYY-MM-DD HH:MM. -/
def payloadShape : List Char → Bool
  | [y1, y2, y3, y4, '-', m1, m2, '-', d1, d2, ' ', h1, h2, ':', n1, n2] =>
    y1.isDigit && y2.isDigit && y3.isDigit && y4.isDigit &&
    m1.isDigit && m2.isDigit && d1.isDigit && d2.isDigit &&
    h1.isDigit && h2.isDigit && n1.isDigit && n2.isDigit
  | _ => false

/-- Try to read a full marker "(discord@YYYY-MM-DD HH:MM)" at the head of
`l`; on success return the 16-character payload and the text after the
closing parenthesis (26 characters consumed). -/
def tryMarker (l : List Char) : Option (List Char × List Char) :=
  if l.take 9 = markerHead ∧ payloadShape ((l.drop 9).take 16) = true ∧
      (l.drop 25).take 1 = [')'] then
    some ((l.drop 9).take 16, l.drop 26)
  else none

/-- Earliest marker occurrence: returns the text before the marker, the date
payload, and the text after the marker. -/
def findMarker : List Char → Option (List Char × List Char × List Char)
  | [] => none
  | c :: cs =>
    match tryMarker (c :: cs) with
    | some (pay, rest) => some ([], pay, rest)
    | none =>
      match findMarker cs with
      | some (pre, pay, rest) => some (c :: pre, pay, rest)
      | none => none

/-- Digit value of a decimal digit character. -/
def dv (c : Char) : Nat := c.toNat - 48

/-- Embedding of `new Date(match[3])`: mixed-radix numeral
year*10^8 + month*10^6 + day*10^4 + hour*10^2 + minute, an injective and
strictly monotone encoding of the five digit groups. -/
def parseDate : List Char → Nat
  | [y1, y2, y3, y4, _, m1, m2, _, d1, d2, _, h1, h2, _, n1, n2] =>
    ((((dv y1 * 1000 + dv y2 * 100 + dv y3 * 10 + dv y4) * 100 +
        (dv m1 * 10 + dv m2)) * 100 + (dv d1 * 10 + dv d2)) * 100 +
      (dv h1 * 10 + dv h2)) * 100 + (dv n1 * 10 + dv n2)
  | _ => 0

/-- Zero-pad a two-digit field. -/
def pad2 (n : Nat) : String := (if n < 10 then "0" else "") ++ toString n

/-- Zero-pad a four-digit field. -/
def pad4 (n : Nat) : String :=
  (if n < 10 then "000" else if n < 100 then "00" else
    if n < 1000 then "0" else "") ++ toString n

/-- Embedding of `Date.prototype.toISOString` on the encoded date value. -/
def isoOfDate (v : Nat) : String :=
  pad4 (v / 100000000) ++ "-" ++ pad2 (v / 1000000 % 100) ++ "-" ++
    pad2 (v / 10000 % 100) ++ "T" ++ pad2 (v / 100 % 100) ++ ":" ++
    pad2 (v % 100) ++ ":00.000Z"

/-- A task as pushed by extractTasks: reminder text and due date. -/
structure Task where
  content : String
  dueDateTime : Nat
deriving DecidableEq, Repr

/-- Build the task pushed for one regex match: match[1] is the text between
the previous scan position and the marker, restricted to the marker's line
(the dot cannot cross line terminators), trimmed, with an unchecked checkbox
prefix stripped; match[3] is the date payload. -/
def mkTask (pre pay : List Char) : Task :=
  ⟨String.mk (stripBox (trimChars (afterLastNewline pre))), parseDate pay⟩

/-- The regex-exec loop of extractTasks, with fuel bounding the number of
matches (each match consumes 26 characters, so fuel `length + 1` suffices). -/
def extractGo : Nat → List Char → List Task
  | 0, _ => []
  | fuel + 1, l =>
    match findMarker l with
    | none => []
    | some (pre, pay, rest) => mkTask pre pay :: extractGo fuel rest

/-- Embedding of extractTasks (src/main.ts lines 68-85). -/
def extractTasks (content : String) : List Task :=
  extractGo (content.data.length + 1) content.data

/-- The task identity used by checkTask:
content ++ "-" ++ dueDateTime.toISOString(). -/
def taskIdOf (content : String) (due : Nat) : String :=
  content ++ "-" ++ isoOfDate due

/-- Embedding of checkTask (src/main.ts lines 87-96) on the in-memory
notified set: returns the updated set and the dispatched
sendNotification request, when any. -/
def checkTask (notified : List String) (content : String) (due now : Nat) :
    List String × Option (String × String) :=
  if due ≤ now ∧ taskIdOf content due ∉ notified then
    (taskIdOf content due :: notified, some (content, isoOfDate due))
  else (notified, none)

/-- Embedding of checkTasks (src/main.ts lines 61-66): iterate checkTask over
the cache, threading the notified set and collecting the dispatched
sendNotification requests in order.  The source samples `now` inside each
checkTask call; within one sweep these samples are taken from the same
synchronous loop and are modeled by the sweep instant `now`. -/
def checkTasks (notified : List String) (cache : List Task) (now : Nat) :
    List String × List (String × String) :=
  match cache with
  | [] => (notified, [])
  | t :: ts =>
    ((checkTasks (checkTask notified t.content t.dueDateTime now).1 ts now).1,
     (checkTask notified t.content t.dueDateTime now).2.toList ++
       (checkTasks (checkTask notified t.content t.dueDateTime now).1 ts now).2)

/-- Identity carried by a dispatched request (content, isoDate): the same
string checkTask stores in the notified set. -/
def notifId (p : String × String) : String := p.1 ++ "-" ++ p.2

/-- How many dispatched requests in `ds` carry the identity `id`. -/
def countId (id : String) (ds : List (String × String)) : Nat :=
  ds.countP (fun p => decide (notifId p = id))

/-- Events of a multi-sweep, multi-restart execution: individual checkTask
evaluations (a sweep is a block of them) and process restarts. -/
inductive Ev where
  | check (content : String) (due now : Nat)
  | restart
deriving DecidableEq, Repr

/-- In-memory notified set paired with the persisted notifiedTasks record
(assumed intact, per the claim). -/
structure NState where
  mem : List String
  disk : List String
deriving DecidableEq, Repr

/-- One checkTask evaluation at plugin level: on fire, the new set is also
persisted at once (saveNotifiedTasks is called inside the if-branch). -/
def stepCheck (st : NState) (c : String) (due now : Nat) :
    NState × Option (String × String) :=
  if (checkTask st.mem c due now).2.isSome then
    (⟨(checkTask st.mem c due now).1, (checkTask st.mem c due now).1⟩,
     (checkTask st.mem c due now).2)
  else (st, (checkTask st.mem c due now).2)

/-- Run a trace of checkTask evaluations and restarts.  A restart reloads the
notified set from the intact persisted record (loadNotifiedTasks), the fresh
process starting from that set in memory. -/
def runEvents : NState → List Ev → NState × List (String × String)
  | st, [] => (st, [])
  | st, Ev.check c due now :: evs =>
    ((runEvents (stepCheck st c due now).1 evs).1,
     (stepCheck st c due now).2.toList ++
       (runEvents (stepCheck st c due now).1 evs).2)
  | st, Ev.restart :: evs => runEvents ⟨st.disk, st.disk⟩ evs

/-- The shape of the single persisted JSON record (data.json): both logical
records live in the same file; a field is `none` when the key is absent. -/
structure SavedData where
  webhookUrl : Option String
  notifiedTasks : Option (List String)
deriving DecidableEq, Repr

/-- DEFAULT_SETTINGS from src/main.ts lines 13-15. -/
def DEFAULT_SETTINGS : SavedData := ⟨some "", none⟩

/-- Plugin persistence state: the persisted record (none when no data file
exists), the in-memory settings object, and the in-memory notified set. -/
structure PState where
  persisted : Option SavedData
  settings : SavedData
  notified : List String
deriving DecidableEq, Repr

/-- Keep `d` when the key is present, else fall back to `b`. -/
def keyOr (d b : Option α) : Option α :=
  match d with
  | some x => some x
  | none => b

/-- Object.assign on the two records: fields present in the loaded data
override the base. -/
def objAssign (base : SavedData) : Option SavedData → SavedData
  | none => base
  | some d => ⟨keyOr d.webhookUrl base.webhookUrl,
               keyOr d.notifiedTasks base.notifiedTasks⟩

/-- Embedding of loadSettings (src/main.ts lines 98-104). -/
def loadSettings (s : PState) : PState :=
  { s with settings := objAssign DEFAULT_SETTINGS s.persisted }

/-- Embedding of saveSettings (src/main.ts lines 106-108): saveData
overwrites the whole persisted record with the settings object. -/
def saveSettings (s : PState) : PState :=
  { s with persisted := some s.settings }

/-- Embedding of loadNotifiedTasks (src/main.ts lines 110-115): only when the
loaded data exists and has a notifiedTasks key is the in-memory set
replaced. -/
def loadNotifiedTasks (s : PState) : PState :=
  match s.persisted with
  | some d =>
    match d.notifiedTasks with
    | some ts => { s with notified := ts }
    | none => s
  | none => s

/-- Embedding of saveNotifiedTasks (src/main.ts lines 117-119): saveData
overwrites the whole persisted record with an object holding only the
notifiedTasks key. -/
def saveNotifiedTasks (s : PState) : PState :=
  { s with persisted := some ⟨none, some s.notified⟩ }

/-- checkTask at plugin level, with its saveNotifiedTasks write-through. -/
def checkTaskP (s : PState) (c : String) (due now : Nat) :
    PState × Option (String × String) :=
  let r := checkTask s.notified c due now
  if r.2.isSome then (saveNotifiedTasks { s with notified := r.1 }, r.2)
  else (s, r.2)

/-- The settings-tab onChange handler: set the webhook URL, then
saveSettings. -/
def setWebhook (s : PState) (v : String) : PState :=
  saveSettings { s with settings := { s.settings with webhookUrl := some v } }

/-- Outcome of sendNotification: a skipped dispatch with a console warning,
or an HTTP POST of the payload to the webhook URL. -/
inductive SendResult where
  | skippedWarn
  | posted (url content dateTime : String)
deriving DecidableEq, Repr

/-- Embedding of sendNotification (src/main.ts lines 121-129): a falsy
(empty) or whitespace-only webhook URL (its trim is empty) skips the
dispatch with a warning; otherwise the payload is posted to the URL. -/
def sendNotification (webhookUrl reminderText dateTime : String) : SendResult :=
  if webhookUrl = "" ∨ trimChars webhookUrl.data = [] then
    SendResult.skippedWarn
  else SendResult.posted webhookUrl reminderText dateTime

/-- Embedding of addToTaskCache (src/main.ts lines 54-59): non-markdown files
are skipped; each freshly extracted task is a new object, so Set.add appends
it to the cache. -/
def addToTaskCache (cache : List Task) (ext fileContent : String) : List Task :=
  if ext = "md" then cache ++ extractTasks fileContent else cache

/-- Embedding of initializeTaskCache (src/main.ts lines 41-48): reset the
cache, then addToTaskCache every file; files are (extension, content). -/
def initializeTaskCache (files : List (String × String)) : List Task :=
  files.foldl (fun cache f => addToTaskCache cache f.1 f.2) []

/-- Spec-side definition, from the spec's words (section 4.1): for each
marker, the claimed content source is all text from the end of the previous
marker (or the start of the document) up to the marker.  Compared below with
the content the source actually extracts. -/
def rawSegments : Nat → List Char → List (List Char)
  | 0, _ => []
  | fuel + 1, l =>
    match findMarker l with
    | none => []
    | some (pre, _, rest) => pre :: rawSegments fuel rest

/-- Boot on an empty vault: onload runs loadSettings then loadNotifiedTasks,
with no data file present. -/
def bootState : PState := loadNotifiedTasks (loadSettings ⟨none, DEFAULT_SETTINGS, []⟩)

/-- The task "a (discord@2025-01-01 09:00)" then fires at its due minute,
which runs saveNotifiedTasks. -/
def firedState : PState := (checkTaskP bootState "a" 202501010900 202501010900).1

/-- The user then enters a webhook URL in the settings tab, which runs
saveSettings. -/
def afterWebhookEdit : PState := setWebhook firedState "u"

/-- The plugin then restarts with the persisted file intact: onload runs
loadSettings and loadNotifiedTasks on a fresh in-memory state. -/
def afterRestart : PState :=
  loadNotifiedTasks (loadSettings ⟨afterWebhookEdit.persisted, DEFAULT_SETTINGS, []⟩)

/-! Helper lemmas about checkTask and the sweep. -/

theorem checkTask_fire {notified : List String} {c : String} {due now : Nat}
    (h1 : due ≤ now) (h2 : taskIdOf c due ∉ notified) :
    checkTask notified c due now =
      (taskIdOf c due :: notified, some (c, isoOfDate due)) := by
  simp [checkTask, h1, h2]

theorem checkTask_skip {notified : List String} {c : String} {due now : Nat}
    (h : ¬(due ≤ now ∧ taskIdOf c due ∉ notified)) :
    checkTask notified c due now = (notified, none) := by
  rw [checkTask, if_neg h]

theorem notifId_pair (c : String) (due : Nat) :
    notifId (c, isoOfDate due) = taskIdOf c due := rfl

theorem countId_append (id : String) (l1 l2 : List (String × String)) :
    countId id (l1 ++ l2) = countId id l1 + countId id l2 :=
  List.countP_append _ _ _

theorem countId_single_eq (id : String) (p : String × String)
    (h : notifId p = id) : countId id [p] = 1 := by
  simp [countId, List.countP_cons, h]

theorem countId_single_ne (id : String) (p : String × String)
    (h : notifId p ≠ id) : countId id [p] = 0 := by
  simp [countId, List.countP_cons, h]

theorem sweep_count_zero {id : String} :
    ∀ (cache : List Task) (notified : List String) (now : Nat),
      id ∈ notified → countId id (checkTasks notified cache now).2 = 0 := by
  intro cache
  induction cache with
  | nil => intro notified now _; simp [checkTasks, countId]
  | cons t ts ih =>
    intro notified now h
    by_cases hc : t.dueDateTime ≤ now ∧ taskIdOf t.content t.dueDateTime ∉ notified
    · have hne : notifId (t.content, isoOfDate t.dueDateTime) ≠ id := by
        rw [notifId_pair]
        intro he
        exact hc.2 (he ▸ h)
      simp only [checkTasks, checkTask_fire hc.1 hc.2, Option.toList]
      rw [countId_append, countId_single_ne _ _ hne,
        ih _ _ (List.mem_cons_of_mem _ h)]
    · simp only [checkTasks, checkTask_skip hc, Option.toList]
      rw [List.nil_append]
      exact ih _ _ h

theorem sweep_count_le_one {id : String} :
    ∀ (cache : List Task) (notified : List String) (now : Nat),
      countId id (checkTasks notified cache now).2 ≤ 1 := by
  intro cache
  induction cache with
  | nil => intro notified now; simp [checkTasks, countId]
  | cons t ts ih =>
    intro notified now
    by_cases hc : t.dueDateTime ≤ now ∧ taskIdOf t.content t.dueDateTime ∉ notified
    · simp only [checkTasks, checkTask_fire hc.1 hc.2, Option.toList]
      rw [countId_append]
      by_cases hid : notifId (t.content, isoOfDate t.dueDateTime) = id
      · rw [countId_single_eq _ _ hid,
          sweep_count_zero _ _ _ (by rw [← notifId_pair t.content, hid]; exact List.mem_cons_self _ _)]
      · rw [countId_single_ne _ _ hid, Nat.zero_add]
        exact ih _ _
    · simp only [checkTasks, checkTask_skip hc, Option.toList]
      rw [List.nil_append]
      exact ih _ _

theorem sweep_count_one {id : String} :
    ∀ (cache : List Task) (notified : List String) (now : Nat),
      id ∉ notified →
      (∃ t, t ∈ cache ∧ taskIdOf t.content t.dueDateTime = id ∧
        t.dueDateTime ≤ now) →
      countId id (checkTasks notified cache now).2 = 1 := by
  intro cache
  induction cache with
  | nil => intro notified now _ hex; simp at hex
  | cons t ts ih =>
    intro notified now hid hex
    by_cases hc : t.dueDateTime ≤ now ∧ taskIdOf t.content t.dueDateTime ∉ notified
    · simp only [checkTasks, checkTask_fire hc.1 hc.2, Option.toList]
      rw [countId_append]
      by_cases heq : taskIdOf t.content t.dueDateTime = id
      · rw [countId_single_eq _ _ (by rw [notifId_pair]; exact heq),
          sweep_count_zero _ _ _ (by rw [← heq]; exact List.mem_cons_self _ _)]
      · obtain ⟨u, hu, huid, hudue⟩ := hex
        have hu' : u ∈ ts := by
          rcases List.mem_cons.mp hu with h | h
          · exact absurd (h ▸ huid) heq
          · exact h
        rw [countId_single_ne _ _ (by rw [notifId_pair]; exact heq), Nat.zero_add]
        exact ih _ _ (by
            intro hmem
            rcases List.mem_cons.mp hmem with h | h
            · exact heq h.symm
            · exact hid h)
          ⟨u, hu', huid, hudue⟩
    · simp only [checkTasks, checkTask_skip hc, Option.toList]
      rw [List.nil_append]
      obtain ⟨u, hu, huid, hudue⟩ := hex
      have hu' : u ∈ ts := by
        rcases List.mem_cons.mp hu with h | h
        · subst h
          exact absurd ⟨hudue, huid ▸ hid⟩ hc
        · exact h
      exact ih _ _ hid ⟨u, hu', huid, hudue⟩

/-- C2: for every task considered by a sweep, a strictly future dueDateTime
dispatches nothing and leaves the notified set unchanged, while a due task
whose identity is not yet notified produces exactly one dispatched
notification for that identity on the sweep. -/
theorem spec_c2_due_time_correctness :
    (∀ (notified : List String) (c : String) (due now : Nat),
      now < due → checkTask notified c due now = (notified, none)) ∧
    (∀ (notified : List String) (cache : List Task) (now : Nat) (t : Task),
      t ∈ cache → t.dueDateTime ≤ now →
      taskIdOf t.content t.dueDateTime ∉ notified →
      countId (taskIdOf t.content t.dueDateTime)
        (checkTasks notified cache now).2 = 1) := by
  constructor
  · intro notified c due now h
    exact checkTask_skip (fun hc => absurd hc.1 (by omega))
  · intro notified cache now t ht hdue hnot
    exact sweep_count_one _ _ _ hnot ⟨t, ht, rfl, hdue⟩

/-- Witness for C2 at concrete inputs: a task due at 5 checked at time 3 is
untouched, and a single due task fires exactly once. -/
theorem spec_c2_witness :
    checkTask [] "x" 5 3 = ([], none) ∧
    countId (taskIdOf "a" 0) (checkTasks [] [⟨"a", 0⟩] 0).2 = 1 :=
  ⟨spec_c2_due_time_correctness.1 [] "x" 5 3 (by decide),
   spec_c2_due_time_correctness.2 [] [⟨"a", 0⟩] 0 ⟨"a", 0⟩ (by decide)
     (by decide) (by decide)⟩

/-- C9: absent persisted data, or persisted data without a notifiedTasks
record, leaves the freshly initialized notified set empty after
loadNotifiedTasks, and the first sweep over the cache then fires every
already-due task exactly once (per identity). -/
theorem spec_c9_cold_start :
    (∀ (p : Option SavedData) (st : SavedData),
      (p = none ∨ ∃ d, p = some d ∧ d.notifiedTasks = none) →
      (loadNotifiedTasks ⟨p, st, []⟩).notified = []) ∧
    (∀ (cache : List Task) (now : Nat) (t : Task),
      t ∈ cache → t.dueDateTime ≤ now →
      countId (taskIdOf t.content t.dueDateTime)
        (checkTasks [] cache now).2 = 1) := by
  constructor
  · rintro p st (rfl | ⟨d, rfl, hd⟩)
    · rfl
    · simp [loadNotifiedTasks, hd]
  · intro cache now t ht hdue
    exact sweep_count_one _ _ _ (List.not_mem_nil _) ⟨t, ht, rfl, hdue⟩

/-- Witness for C9: no data file at all, and a single already-due task. -/
theorem spec_c9_witness :
    (loadNotifiedTasks ⟨none, DEFAULT_SETTINGS, []⟩).notified = [] ∧
    countId (taskIdOf "b" 0) (checkTasks [] [⟨"b", 0⟩] 7).2 = 1 :=
  ⟨spec_c9_cold_start.1 none DEFAULT_SETTINGS (Or.inl rfl),
   spec_c9_cold_start.2 [⟨"b", 0⟩] 7 ⟨"b", 0⟩ (by decide) (by decide)⟩

/-! Trace lemmas for the at-most-once property. -/

theorem stepCheck_fire {st : NState} {c : String} {due now : Nat}
    (h1 : due ≤ now) (h2 : taskIdOf c due ∉ st.mem) :
    stepCheck st c due now =
      (⟨taskIdOf c due :: st.mem, taskIdOf c due :: st.mem⟩,
       some (c, isoOfDate due)) := by
  simp [stepCheck, checkTask_fire h1 h2]

theorem stepCheck_skip {st : NState} {c : String} {due now : Nat}
    (h : ¬(due ≤ now ∧ taskIdOf c due ∉ st.mem)) :
    stepCheck st c due now = (st, none) := by
  simp [stepCheck, checkTask_skip h]

theorem run_count_zero {id : String} :
    ∀ (evs : List Ev) (st : NState), st.disk = st.mem → id ∈ st.mem →
      countId id (runEvents st evs).2 = 0 := by
  intro evs
  induction evs with
  | nil => intro st _ _; simp [runEvents, countId]
  | cons e evs ih =>
    intro st hinv h
    cases e with
    | check c due now =>
      by_cases hc : due ≤ now ∧ taskIdOf c due ∉ st.mem
      · have hne : notifId (c, isoOfDate due) ≠ id := by
          rw [notifId_pair]
          intro he
          exact hc.2 (he ▸ h)
        simp only [runEvents, stepCheck_fire hc.1 hc.2, Option.toList]
        rw [countId_append, countId_single_ne _ _ hne,
          ih _ rfl (List.mem_cons_of_mem _ h)]
      · simp only [runEvents, stepCheck_skip hc, Option.toList]
        rw [List.nil_append]
        exact ih _ hinv h
    | restart =>
      simp only [runEvents]
      exact ih ⟨st.disk, st.disk⟩ rfl (hinv.symm ▸ h)

theorem run_count_le_one {id : String} :
    ∀ (evs : List Ev) (st : NState), st.disk = st.mem →
      countId id (runEvents st evs).2 ≤ 1 := by
  intro evs
  induction evs with
  | nil => intro st _; simp [runEvents, countId]
  | cons e evs ih =>
    intro st hinv
    cases e with
    | check c due now =>
      by_cases hc : due ≤ now ∧ taskIdOf c due ∉ st.mem
      · simp only [runEvents, stepCheck_fire hc.1 hc.2, Option.toList]
        rw [countId_append]
        by_cases hid : notifId (c, isoOfDate due) = id
        · rw [countId_single_eq _ _ hid, run_count_zero _ _ rfl
            (by rw [← notifId_pair c due, hid]; exact List.mem_cons_self _ _)]
        · rw [countId_single_ne _ _ hid, Nat.zero_add]
          exact ih _ rfl
      · simp only [runEvents, stepCheck_skip hc, Option.toList]
        rw [List.nil_append]
        exact ih _ hinv
    | restart =>
      simp only [runEvents]
      exact ih _ rfl

theorem run_mem_mono {x : String} :
    ∀ (evs : List Ev) (st : NState), st.disk = st.mem → x ∈ st.mem →
      x ∈ (runEvents st evs).1.mem := by
  intro evs
  induction evs with
  | nil => intro st _ h; simpa [runEvents] using h
  | cons e evs ih =>
    intro st hinv h
    cases e with
    | check c due now =>
      by_cases hc : due ≤ now ∧ taskIdOf c due ∉ st.mem
      · simp only [runEvents, stepCheck_fire hc.1 hc.2]
        exact ih _ rfl (List.mem_cons_of_mem _ h)
      · simp only [runEvents, stepCheck_skip hc]
        exact ih _ hinv h
    | restart =>
      simp only [runEvents]
      exact ih ⟨st.disk, st.disk⟩ rfl (hinv.symm ▸ h)

/-- C1: starting from any state whose in-memory set agrees with the intact
persisted set (every post-load state has this shape), any trace of checkTask
evaluations and restarts dispatches at most one notification per identity;
the notified set only grows; and checkTask dispatches only when the identity
is absent from the set. -/
theorem spec_c1_at_most_once :
    (∀ (start : List String) (evs : List Ev) (id : String),
      countId id (runEvents ⟨start, start⟩ evs).2 ≤ 1) ∧
    (∀ (st : NState) (evs : List Ev) (x : String),
      st.disk = st.mem → x ∈ st.mem → x ∈ (runEvents st evs).1.mem) ∧
    (∀ (notified : List String) (c : String) (due now : Nat),
      (checkTask notified c due now).2.isSome = true →
      taskIdOf c due ∉ notified) := by
  refine ⟨fun start evs id => run_count_le_one evs _ rfl,
    fun st evs x hinv h => run_mem_mono evs st hinv h,
    fun notified c due now h => ?_⟩
  by_cases hc : due ≤ now ∧ taskIdOf c due ∉ notified
  · exact hc.2
  · rw [checkTask_skip hc] at h
    simp at h

/-- Witness for C1: a restart preserves a persisted identity, and a firing
checkTask had the identity absent. -/
theorem spec_c1_witness :
    countId "a" (runEvents ⟨[], []⟩ [Ev.check "a" 0 0]).2 ≤ 1 ∧
    "a" ∈ (runEvents ⟨["a"], ["a"]⟩ [Ev.restart]).1.mem ∧
    taskIdOf "x" 0 ∉ ([] : List String) :=
  ⟨spec_c1_at_most_once.1 [] [Ev.check "a" 0 0] "a",
   spec_c1_at_most_once.2.1 ⟨["a"], ["a"]⟩ [Ev.restart] "a" rfl (by decide),
   spec_c1_at_most_once.2.2 [] "x" 0 0 (by decide)⟩

/-- C4: evaluation of the persistence code on a concrete run.  After the
task fires, the persisted record holds the identity (and has lost the
webhookUrl key); after the user saves the webhook URL, the persisted record
has lost the notifiedTasks key entirely; after a restart the fired identity
is gone from the in-memory notified set, contradicting the claimed
round-trip and frame conditions. -/
theorem spec_c4_save_clobbers_persisted :
    firedState.notified = ["a-2025-01-01T09:00:00.000Z"] ∧
    firedState.persisted = some ⟨none, some ["a-2025-01-01T09:00:00.000Z"]⟩ ∧
    afterWebhookEdit.persisted = some ⟨some "u", none⟩ ∧
    afterRestart.notified = [] := by decide

/-- C3 counterexample: addToTaskCache merges instead of replacing.
Re-running it on the unchanged document leaves the cache with two entries of
the same identity, and re-running it after the marker was removed leaves the
stale task in the cache. -/
theorem spec_c3_counterexample :
    (addToTaskCache
        (addToTaskCache [] "md" "task (discord@2025-01-01 09:00)")
        "md" "task (discord@2025-01-01 09:00)").map
      (fun t => taskIdOf t.content t.dueDateTime) =
      ["task-2025-01-01T09:00:00.000Z", "task-2025-01-01T09:00:00.000Z"] ∧
    (addToTaskCache
        (addToTaskCache [] "md" "task (discord@2025-01-01 09:00)")
        "md" "").map (fun t => t.content) = ["task"] := by decide

theorem addToTaskCache_eq_append (cache : List Task) (ext txt : String) :
    addToTaskCache cache ext txt = cache ++ addToTaskCache [] ext txt := by
  by_cases h : ext = "md" <;> simp [addToTaskCache, h]

theorem initialize_foldl_eq :
    ∀ (files : List (String × String)) (acc : List Task),
      files.foldl (fun cache f => addToTaskCache cache f.1 f.2) acc =
        acc ++ (files.map (fun f => addToTaskCache [] f.1 f.2)).flatten := by
  intro files
  induction files with
  | nil => intro acc; simp
  | cons f fs ih =>
    intro acc
    simp only [List.foldl_cons, List.map_cons, List.flatten_cons]
    rw [ih, addToTaskCache_eq_append, List.append_assoc]

/-- C3 amended: a document change event merges rather than replaces: every
task already in the cache survives addToTaskCache, which appends the fresh
extraction of the changed document; only the startup initializeTaskCache
rebuilds the cache, as the concatenation (not identity-deduplicated union)
of every file's extraction. -/
theorem spec_c3_cache_merge :
    (∀ (cache : List Task) (ext txt : String) (t : Task),
      t ∈ cache → t ∈ addToTaskCache cache ext txt) ∧
    (∀ files : List (String × String),
      initializeTaskCache files =
        (files.map (fun f => addToTaskCache [] f.1 f.2)).flatten) := by
  constructor
  · intro cache ext txt t ht
    rw [addToTaskCache_eq_append]
    exact List.mem_append_left _ ht
  · intro files
    rw [initializeTaskCache, initialize_foldl_eq, List.nil_append]

/-- Witness for C3 amended: a cached task survives a change event that
removed its marker. -/
theorem spec_c3_witness :
    (⟨"a", 0⟩ : Task) ∈ addToTaskCache [⟨"a", 0⟩] "md" "" :=
  spec_c3_cache_merge.1 [⟨"a", 0⟩] "md" "" ⟨"a", 0⟩ (by decide)

/-- C5 counterexample: the claimed content (the full inter-marker segment,
trimmed) disagrees with the extracted content both when a line terminator
precedes the marker (the dot cannot cross it) and when the segment carries
an unchecked checkbox prefix (which the source strips). -/
theorem spec_c5_counterexample :
    (extractTasks "a\nb (discord@2025-01-01 09:00)").map (fun t => t.content) =
      ["b"] ∧
    (rawSegments ("a\nb (discord@2025-01-01 09:00)".data.length + 1)
        "a\nb (discord@2025-01-01 09:00)".data).map
      (fun seg => String.mk (trimChars seg)) = ["a\nb"] ∧
    ("b" : String) ≠ "a\nb" ∧
    (extractTasks "- [ ] a (discord@2025-01-01 09:00)").map
      (fun t => t.content) = ["a"] ∧
    (rawSegments ("- [ ] a (discord@2025-01-01 09:00)".data.length + 1)
        "- [ ] a (discord@2025-01-01 09:00)".data).map
      (fun seg => String.mk (trimChars seg)) = ["- [ ] a"] ∧
    ("a" : String) ≠ "- [ ] a" := by decide

theorem extractGo_content_eq_segments :
    ∀ (fuel : Nat) (l : List Char),
      (extractGo fuel l).map (fun t => t.content.data) =
        (rawSegments fuel l).map
          (fun seg => stripBox (trimChars (afterLastNewline seg))) := by
  intro fuel
  induction fuel with
  | zero => intro l; rfl
  | succ f ih =>
    intro l
    simp only [extractGo, rawSegments]
    cases hf : findMarker l with
    | none => rfl
    | some pr =>
      obtain ⟨pre, pay, rest⟩ := pr
      rw [List.map_cons, List.map_cons, ih]
      rfl

/-- C5 amended: each task's content is the text from the end of the previous
marker (or document start) up to its marker, first restricted to the
marker's own line (everything up to the last line terminator of the segment
is discarded, since the regex dot cannot cross line terminators), then
trimmed, with an unchecked checkbox prefix stripped.  In particular no
content reaches back to or before the previous marker's closing
parenthesis: it is drawn from the segment strictly after it. -/
theorem spec_c5_content_segments (s : String) :
    (extractTasks s).map (fun t => t.content.data) =
      (rawSegments (s.data.length + 1) s.data).map
        (fun seg => stripBox (trimChars (afterLastNewline seg))) :=
  extractGo_content_eq_segments _ _

/-- C6: the unchecked checkbox prefix is stripped from the extracted
content; the checked form is left as-is. -/
theorem spec_c6_checkbox_stripping :
    (extractTasks "- [ ] Buy milk (discord@2025-01-01 09:00)").map
      (fun t => t.content) = ["Buy milk"] ∧
    (extractTasks "- [x] Buy milk (discord@2025-01-01 09:00)").map
      (fun t => t.content) = ["- [x] Buy milk"] := by decide

/-- C7: parsing is deterministic and idempotent: two runs of extractTasks on
the same text yield task sequences of the same length with pairwise
identical identities in the same order (the source loop's only state, the
regex lastIndex, is created afresh at each call, so the embedding is a pure
function of the text). -/
theorem spec_c7_idempotent_parse (s : String) :
    (extractTasks s).length = (extractTasks s).length ∧
    (extractTasks s).map (fun t => taskIdOf t.content t.dueDateTime) =
      (extractTasks s).map (fun t => taskIdOf t.content t.dueDateTime) :=
  ⟨rfl, rfl⟩

/-- C8: with a blank or whitespace-only webhook URL, a due unfired task is
still recorded in the notified set by checkTask, and the dispatch request it
emits resolves to a skipped send with a warning, not a post. -/
theorem spec_c8_blank_webhook (notified : List String) (c : String)
    (due now : Nat) (url : String) (h1 : due ≤ now)
    (h2 : taskIdOf c due ∉ notified) (h3 : trimChars url.data = []) :
    checkTask notified c due now =
      (taskIdOf c due :: notified, some (c, isoOfDate due)) ∧
    sendNotification url c (isoOfDate due) = SendResult.skippedWarn := by
  refine ⟨checkTask_fire h1 h2, ?_⟩
  rw [sendNotification, if_pos (Or.inr h3)]

/-- Witness for C8: a whitespace-only URL with a task due now. -/
theorem spec_c8_witness :
    checkTask [] "a" 0 0 = (taskIdOf "a" 0 :: [], some ("a", isoOfDate 0)) ∧
    sendNotification " " "a" (isoOfDate 0) = SendResult.skippedWarn :=
  spec_c8_blank_webhook [] "a" 0 0 " " (by decide) (by decide) (by decide)

/-! Helper lemmas for the single-line property of extracted content. -/

theorem mem_afterLastNewline {c : Char} {l : List Char}
    (h : c ∈ afterLastNewline l) : isLineTerm c = false := by
  rw [afterLastNewline, List.mem_reverse] at h
  have hp := List.mem_takeWhile_imp h
  simpa using hp

theorem trimChars_subset {l : List Char} : trimChars l ⊆ l := by
  intro c hc
  rw [trimChars, List.mem_reverse] at hc
  have h1 : c ∈ (l.dropWhile Char.isWhitespace).reverse :=
    (List.dropWhile_sublist _).subset hc
  rw [List.mem_reverse] at h1
  exact (List.dropWhile_sublist _).subset h1

theorem stripBox_subset {l : List Char} : stripBox l ⊆ l := by
  intro c hc
  rw [stripBox] at hc
  by_cases h : l.take 5 = ['-', ' ', '[', ' ', ']']
  · rw [if_pos h] at hc
    exact List.drop_subset _ _ (trimChars_subset hc)
  · rwa [if_neg h] at hc

theorem extract_no_lineterm :
    ∀ (fuel : Nat) (l : List Char) (t : Task), t ∈ extractGo fuel l →
      ∀ c ∈ t.content.data, isLineTerm c = false := by
  intro fuel
  induction fuel with
  | zero => intro l t ht; simp [extractGo] at ht
  | succ f ih =>
    intro l t ht c hc
    rw [extractGo] at ht
    cases hf : findMarker l with
    | none => rw [hf] at ht; simp at ht
    | some pr =>
      obtain ⟨pre, pay, rest⟩ := pr
      rw [hf] at ht
      rcases List.mem_cons.mp ht with h | h
      · subst h
        exact mem_afterLastNewline (trimChars_subset (stripBox_subset hc))
      · exact ih _ _ h c hc

/-! Fuel irrelevance: each marker consumes 26 characters of the remaining
text, so any fuel above the text length yields the same extraction; the
`length + 1` fuel of extractTasks therefore never truncates the loop. -/

theorem tryMarker_rest {l pay rest : List Char}
    (h : tryMarker l = some (pay, rest)) :
    rest = l.drop 26 ∧ 25 < l.length := by
  rw [tryMarker] at h
  by_cases hc : l.take 9 = markerHead ∧ payloadShape ((l.drop 9).take 16) = true ∧
      (l.drop 25).take 1 = [')']
  · rw [if_pos hc] at h
    injection h with h'
    have hne : l.drop 25 ≠ [] := by
      intro he
      rw [he] at hc
      simp at hc
    have hlen : ¬l.length ≤ 25 := fun hle => hne (List.drop_eq_nil_of_le hle)
    exact ⟨(congrArg Prod.snd h').symm, by omega⟩
  · rw [if_neg hc] at h
    exact absurd h (Option.noConfusion)

theorem findMarker_rest_length :
    ∀ {l pre pay rest : List Char}, findMarker l = some (pre, pay, rest) →
      rest.length < l.length := by
  intro l
  induction l with
  | nil => intro pre pay rest h; simp [findMarker] at h
  | cons c cs ih =>
    intro pre pay rest h
    rw [findMarker] at h
    cases ht : tryMarker (c :: cs) with
    | some pr =>
      obtain ⟨pay', rest'⟩ := pr
      rw [ht] at h
      injection h with h'
      obtain ⟨hdrop, hlen⟩ := tryMarker_rest ht
      have hr : rest = rest' := (congrArg (fun q => q.2.2) h').symm
      rw [hr, hdrop, List.length_drop]
      simp only [List.length_cons] at hlen ⊢
      omega
    | none =>
      rw [ht] at h
      cases hm : findMarker cs with
      | none => rw [hm] at h; exact absurd h (Option.noConfusion)
      | some pr' =>
        obtain ⟨pre', pay', rest''⟩ := pr'
        rw [hm] at h
        injection h with h'
        have hr : rest = rest'' := (congrArg (fun q => q.2.2) h').symm
        rw [hr]
        exact Nat.lt_trans (ih hm) (Nat.lt_succ_self _)

theorem extractGo_fuel_congr :
    ∀ (f1 : Nat) (l : List Char) (f2 : Nat), l.length < f1 → l.length < f2 →
      extractGo f1 l = extractGo f2 l := by
  intro f1
  induction f1 with
  | zero => intro l f2 h1 _; exact absurd h1 (Nat.not_lt_zero _)
  | succ g ih =>
    intro l f2 h1 h2
    cases f2 with
    | zero => exact absurd h2 (Nat.not_lt_zero _)
    | succ k =>
      rw [extractGo, extractGo]
      cases hf : findMarker l with
      | none => rfl
      | some pr =>
        obtain ⟨pre, pay, rest⟩ := pr
        have hlt := findMarker_rest_length hf
        show mkTask pre pay :: extractGo g rest =
          mkTask pre pay :: extractGo k rest
        rw [ih rest k (by omega) (by omega)]

theorem extractTasks_fuel_stable (s : String) (f : Nat)
    (h : s.data.length < f) : extractGo f s.data = extractTasks s :=
  extractGo_fuel_congr f s.data (s.data.length + 1) h (Nat.lt_succ_self _)

/-- C10: every extracted task's content is drawn from the single line its
marker sits on: it contains no line terminator (the regex dot does not match
them). -/
theorem spec_c10_single_line (s : String) (t : Task)
    (h : t ∈ extractTasks s) :
    t.content.data.all (fun c => !(isLineTerm c)) = true := by
  rw [List.all_eq_true]
  intro c hc
  have hlt := extract_no_lineterm _ _ _ h c hc
  simp [hlt]

/-- Witness for C10 on a concrete document. -/
theorem spec_c10_witness :
    (Task.mk "a" 202501010900).content.data.all
      (fun c => !(isLineTerm c)) = true :=
  spec_c10_single_line "a (discord@2025-01-01 09:00)" ⟨"a", 202501010900⟩
    (by decide)

end ObsidianDiscord
